import Mathlib

/-!
Verification of the promise-pool executor (`src/promise-pool-executor.ts`).

The development has two layers:

* a raw value layer (`JSVal`, `RawExecutor`) embedding the dynamically
  typed configuration checks of `validateInputs`, including the `typeof`
  tests and the truthiness test on the optional error handler; and

* a typed run layer: the configuration fields of the executor class
  (`RunConfig`), the mutable run state (`PoolState`: pending items, the
  `tasks` array of in-flight tasks, `results`, `errors`), and a
  small-step transition relation `Step` describing the admission loop of
  `process` together with the completion callbacks installed by
  `startProcessing`. Settle transitions model observed completions of
  in-flight tasks; they occur exactly while the admission loop is
  suspended on `Promise.race` (phase `suspended`) or while `drained`
  awaits `Promise.all` (phase `draining`), matching the single-threaded
  cooperative semantics of the source.
-/

namespace PromisePool

/-- Raw dynamically typed values, as far as `validateInputs` inspects
them: numbers (modelled as rationals), strings, booleans, callable
values, array values, `undefined` and `null`. -/
inductive JSVal where
  | num (q : ℚ)
  | str (s : String)
  | bool (b : Bool)
  | fn
  | arr
  | undef
  | null
deriving DecidableEq

/-- The JavaScript `typeof` operator on the modelled values. -/
def typeofJS : JSVal → String
  | .num _ => "number"
  | .str _ => "string"
  | .bool _ => "boolean"
  | .fn => "function"
  | .arr => "object"
  | .undef => "undefined"
  | .null => "object"

/-- JavaScript truthiness of the modelled values, used by the test
`if (this.errorHandler)`. -/
def truthy : JSVal → Bool
  | .num q => decide (q ≠ 0)
  | .str s => decide (s ≠ "")
  | .bool b => b
  | .fn => true
  | .arr => true
  | .undef => false
  | .null => false

/-- The `Array.isArray` test. -/
def isArrayJS : JSVal → Bool
  | .arr => true
  | _ => false

/-- The test `typeof c === 'number' && c >= 1` from `validateInputs`. -/
def isNumberGe1 : JSVal → Bool
  | .num q => decide (1 ≤ q)
  | _ => false

/-- The four configuration errors thrown by `validateInputs`, in source
order. -/
inductive ConfigError where
  | handlerNotAFunction
  | concurrencyInvalid
  | itemsNotAnArray
  | errorHandlerNotAFunction
deriving DecidableEq

/-- The configuration fields of the executor as raw dynamically typed
values, the view on which `validateInputs` operates. -/
structure RawExecutor where
  handler : JSVal
  concurrency : JSVal
  items : JSVal
  errorHandler : JSVal
deriving DecidableEq

/-- Embedding of `validateInputs`: the checks in source order, returning
the executor unchanged when all of them pass. -/
def RawExecutor.validateInputs (e : RawExecutor) : Except ConfigError RawExecutor :=
  if typeofJS e.handler ≠ "function" then
    Except.error ConfigError.handlerNotAFunction
  else if ¬ isNumberGe1 e.concurrency then
    Except.error ConfigError.concurrencyInvalid
  else if ¬ isArrayJS e.items then
    Except.error ConfigError.itemsNotAnArray
  else if truthy e.errorHandler ∧ typeofJS e.errorHandler ≠ "function" then
    Except.error ConfigError.errorHandlerNotAFunction
  else
    Except.ok e

/-- Embedding of `start`, abstracting the processing that follows
validation as an arbitrary continuation `run`: `start` validates first
and only then processes, so on a validation error no continuation (in
particular no invocation of the processing function) ever happens. -/
def RawExecutor.start (e : RawExecutor) (run : RawExecutor → List JSVal) :
    Except ConfigError (List JSVal) :=
  (e.validateInputs).map run

/-- Written from the spec's words, for comparison with the check the
code performs: the spec's configuration invariant demands that the
concurrency limit be a positive integer. -/
def specPositiveInteger (v : JSVal) : Prop :=
  ∃ n : ℕ, 1 ≤ n ∧ v = JSVal.num (n : ℚ)

/-- Modelled from the spec: the class `PromisePoolError` of
`promise-pool-error.ts` is not among the sources; per the spec it wraps
a raised failure together with the original item that caused it. -/
structure PromisePoolError (T E : Type) where
  error : E
  item : T
deriving DecidableEq

/-- Modelled from the spec: `PromisePoolError.createFrom error item`
pairs the raised error with the offending item. -/
def PromisePoolError.createFrom {T E : Type} (error : E) (item : T) :
    PromisePoolError T E :=
  { error := error, item := item }

/-- Modelled from the spec: the shape returned by `start` / `drained`
(`return-value.ts` is not among the sources), collecting the results
and the errors of one run. -/
structure ReturnValue (T R E : Type) where
  results : List R
  errors : List (PromisePoolError T E)
deriving DecidableEq

/-- The type of the per-item processing function `(item, index)`; one
invocation either produces a value or raises an error. -/
def ProcessHandler (T R E : Type) : Type :=
  T → Nat → Except E R

/-- The executor class: the configuration fields (`items`,
`concurrency`, `handler`, `errorHandler`) together with the mutable
collections (`tasks`, `results`, `errors`). An error-handler invocation
either returns or raises an error of its own. -/
structure PromisePoolExecutor (T R E : Type) where
  items : List T
  concurrency : ℚ
  tasks : List (Nat × T)
  results : List R
  handler : ProcessHandler T R E
  errorHandler : Option (E → T → Except E Unit)
  errors : List (PromisePoolError T E)

/-- Embedding of `withConcurrency`. -/
def PromisePoolExecutor.withConcurrency {T R E : Type}
    (e : PromisePoolExecutor T R E) (concurrency : ℚ) : PromisePoolExecutor T R E :=
  { e with concurrency := concurrency }

/-- Embedding of `for` (named `forItems` because `for` is reserved in
Lean). -/
def PromisePoolExecutor.forItems {T R E : Type}
    (e : PromisePoolExecutor T R E) (items : List T) : PromisePoolExecutor T R E :=
  { e with items := items }

/-- Embedding of `withHandler`. -/
def PromisePoolExecutor.withHandler {T R E : Type}
    (e : PromisePoolExecutor T R E) (action : ProcessHandler T R E) :
    PromisePoolExecutor T R E :=
  { e with handler := action }

/-- Embedding of `handleError`; the argument is optional in the
source. -/
def PromisePoolExecutor.handleError {T R E : Type}
    (e : PromisePoolExecutor T R E) (handler : Option (E → T → Except E Unit)) :
    PromisePoolExecutor T R E :=
  { e with errorHandler := handler }

/-- The configuration part of the executor, fixed for the duration of a
run (the spec: configuration is validated once at `start` and never
mutated afterward). -/
structure RunConfig (T R E : Type) where
  items : List T
  concurrency : ℚ
  handler : ProcessHandler T R E
  errorHandler : Option (E → T → Except E Unit)

/-- The configuration a run started on the executor uses. -/
def PromisePoolExecutor.runConfig {T R E : Type} (e : PromisePoolExecutor T R E) :
    RunConfig T R E :=
  { items := e.items, concurrency := e.concurrency,
    handler := e.handler, errorHandler := e.errorHandler }

/-- Control phase of a run: the admission loop is executing (`looping`),
the loop is suspended on `Promise.race` awaiting a free slot
(`suspended`), the loop has admitted every item and `drained` awaits
`Promise.all` (`draining`), `start` has resolved (`completed`), or
`start` has rejected with an error raised by the error handler
(`failed`). -/
inductive Phase (E : Type) where
  | looping
  | suspended
  | draining
  | completed
  | failed (e : E)
deriving DecidableEq

/-- The run state: `pending` holds the not-yet-admitted `(index, item)`
pairs (the remainder of `items.entries()`), `tasks` the in-flight
tasks, `results` and `errors` the two output collections,
`handlerCalls` the log of error-handler invocations `(error, item)` in
invocation order, and `started` the log of admissions in admission
order. -/
structure PoolState (T R E : Type) where
  pending : List (Nat × T)
  tasks : List (Nat × T)
  results : List R
  errors : List (PromisePoolError T E)
  handlerCalls : List (E × T)
  started : List (Nat × T)
  phase : Phase E

/-- Embedding of `activeCount`: the length of the `tasks` array. -/
def PoolState.activeCount {T R E : Type} (s : PoolState T R E) : Nat :=
  s.tasks.length

/-- Embedding of `hasReachedConcurrencyLimit`:
`activeCount() >= concurrency`. -/
def hasReachedConcurrencyLimit {T R E : Type} (cfg : RunConfig T R E)
    (s : PoolState T R E) : Bool :=
  decide (cfg.concurrency ≤ (s.activeCount : ℚ))

/-- Embedding of `createTaskFor`: the outcome of `handler(item, index)`. -/
def createTaskFor {T R E : Type} (cfg : RunConfig T R E) (item : T) (index : Nat) :
    Except E R :=
  cfg.handler item index

/-- Effect of one observed completion: the callbacks `startProcessing`
attached to the task for `(index, item)` sitting at position `j` of the
`tasks` array. On success the result is pushed and the task spliced
out; on failure the task is spliced out and then either the configured
error handler runs (an error raised by the handler itself failing the
whole run) or a `PromisePoolError` is pushed onto `errors`. `ph` is the
phase the run stays in when the completion does not fail the run. -/
def settleTask {T R E : Type} (cfg : RunConfig T R E) (s : PoolState T R E)
    (j : Nat) (index : Nat) (item : T) (ph : Phase E) : PoolState T R E :=
  match createTaskFor cfg item index with
  | Except.ok r =>
      { s with tasks := s.tasks.eraseIdx j,
               results := s.results ++ [r], phase := ph }
  | Except.error err =>
      match cfg.errorHandler with
      | some h =>
          match h err item with
          | Except.ok _ =>
              { s with tasks := s.tasks.eraseIdx j,
                       handlerCalls := s.handlerCalls ++ [(err, item)], phase := ph }
          | Except.error err2 =>
              { s with tasks := s.tasks.eraseIdx j,
                       handlerCalls := s.handlerCalls ++ [(err, item)],
                       phase := Phase.failed err2 }
      | none =>
          { s with tasks := s.tasks.eraseIdx j,
                   errors := s.errors ++ [PromisePoolError.createFrom err item],
                   phase := ph }

/-- The state at the top of `process`: every `(index, item)` pair of
`items.entries()` is pending, the collections are as the constructor
left them (empty), and the admission loop is executing. -/
def initState {T R E : Type} (cfg : RunConfig T R E) : PoolState T R E :=
  { pending := cfg.items.enum, tasks := [], results := [], errors := [],
    handlerCalls := [], started := [], phase := Phase.looping }

/-- Small-step transition relation of one run. The admission transitions
follow the loop of `process`: when the concurrency limit is not reached
the current item is started at once; when it is reached the loop
suspends on `Promise.race` and, once at least one task has settled
(equivalently, once the limit test fails again — entering the
suspension requires the active count to be at the limit and only
settles change it while suspended), resumes and starts the current
item. Settle transitions apply the completion callbacks to any
in-flight task while the loop is suspended or draining. -/
inductive Step {T R E : Type} (cfg : RunConfig T R E) :
    PoolState T R E → PoolState T R E → Prop where
  | startProcessing {s : PoolState T R E} {i : Nat} {t : T} {rest : List (Nat × T)}
      (hph : s.phase = Phase.looping)
      (hp : s.pending = (i, t) :: rest)
      (hfree : hasReachedConcurrencyLimit cfg s = false) :
      Step cfg s { s with pending := rest, tasks := s.tasks ++ [(i, t)],
                          started := s.started ++ [(i, t)] }
  | awaitSlot {s : PoolState T R E} {i : Nat} {t : T} {rest : List (Nat × T)}
      (hph : s.phase = Phase.looping)
      (hp : s.pending = (i, t) :: rest)
      (hfull : hasReachedConcurrencyLimit cfg s = true) :
      Step cfg s { s with phase := Phase.suspended }
  | settleRace {s : PoolState T R E} {j i : Nat} {t : T}
      (hph : s.phase = Phase.suspended)
      (hj : j < s.tasks.length)
      (ht : s.tasks.get ⟨j, hj⟩ = (i, t)) :
      Step cfg s (settleTask cfg s j i t Phase.suspended)
  | resumeProcessing {s : PoolState T R E} {i : Nat} {t : T} {rest : List (Nat × T)}
      (hph : s.phase = Phase.suspended)
      (hp : s.pending = (i, t) :: rest)
      (hfree : hasReachedConcurrencyLimit cfg s = false) :
      Step cfg s { s with pending := rest, tasks := s.tasks ++ [(i, t)],
                          started := s.started ++ [(i, t)], phase := Phase.looping }
  | beginDrain {s : PoolState T R E}
      (hph : s.phase = Phase.looping)
      (hp : s.pending = []) :
      Step cfg s { s with phase := Phase.draining }
  | settleDrain {s : PoolState T R E} {j i : Nat} {t : T}
      (hph : s.phase = Phase.draining)
      (hj : j < s.tasks.length)
      (ht : s.tasks.get ⟨j, hj⟩ = (i, t)) :
      Step cfg s (settleTask cfg s j i t Phase.draining)
  | finishDrain {s : PoolState T R E}
      (hph : s.phase = Phase.draining)
      (ht : s.tasks = []) :
      Step cfg s { s with phase := Phase.completed }

/-- States one run can pass through, from the top of `process`. -/
def Reachable {T R E : Type} (cfg : RunConfig T R E) (s : PoolState T R E) : Prop :=
  Relation.ReflTransGen (Step cfg) (initState cfg) s

/-- The value `drained` returns once the run has completed. -/
def PoolState.returnValue {T R E : Type} (s : PoolState T R E) :
    Option (ReturnValue T R E) :=
  match s.phase with
  | Phase.completed => some { results := s.results, errors := s.errors }
  | _ => none

section SettleTaskLemmas

variable {T R E : Type} {cfg : RunConfig T R E} {s : PoolState T R E}

theorem settleTask_ok {j i : Nat} {t : T} {ph : Phase E} {r : R}
    (h : createTaskFor cfg t i = Except.ok r) :
    settleTask cfg s j i t ph =
      { s with tasks := s.tasks.eraseIdx j,
               results := s.results ++ [r], phase := ph } := by
  unfold settleTask
  rw [h]

theorem settleTask_error_no_handler {j i : Nat} {t : T} {ph : Phase E} {err : E}
    (h : createTaskFor cfg t i = Except.error err)
    (hEH : cfg.errorHandler = none) :
    settleTask cfg s j i t ph =
      { s with tasks := s.tasks.eraseIdx j,
               errors := s.errors ++ [PromisePoolError.createFrom err t],
               phase := ph } := by
  unfold settleTask
  rw [h, hEH]

theorem settleTask_error_handled {j i : Nat} {t : T} {ph : Phase E} {err : E}
    {h : E → T → Except E Unit} {u : Unit}
    (hout : createTaskFor cfg t i = Except.error err)
    (hEH : cfg.errorHandler = some h)
    (hh : h err t = Except.ok u) :
    settleTask cfg s j i t ph =
      { s with tasks := s.tasks.eraseIdx j,
               handlerCalls := s.handlerCalls ++ [(err, t)], phase := ph } := by
  unfold settleTask
  simp only [hout, hEH, hh]

theorem settleTask_error_handler_raised {j i : Nat} {t : T} {ph : Phase E}
    {err err2 : E} {h : E → T → Except E Unit}
    (hout : createTaskFor cfg t i = Except.error err)
    (hEH : cfg.errorHandler = some h)
    (hh : h err t = Except.error err2) :
    settleTask cfg s j i t ph =
      { s with tasks := s.tasks.eraseIdx j,
               handlerCalls := s.handlerCalls ++ [(err, t)],
               phase := Phase.failed err2 } := by
  unfold settleTask
  simp only [hout, hEH, hh]

end SettleTaskLemmas

section Invariant

variable {T R E : Type}

/-- Facts preserved by every transition of a run: the admission log
followed by the pending items is exactly `items.entries()`; a suspended
loop still has an item to admit; nothing is pending while draining or
completed; no task is in flight once completed; every item is in
exactly one of pending, in flight, `results`, `errors`, or the
error-handler invocation log; without an error handler no handler call
and no run failure ever happens; with an error handler `errors` stays
empty. -/
structure Inv (cfg : RunConfig T R E) (s : PoolState T R E) : Prop where
  startedPending : s.started ++ s.pending = cfg.items.enum
  suspendedPending : s.phase = Phase.suspended → s.pending ≠ []
  drainPending : s.phase = Phase.draining ∨ s.phase = Phase.completed → s.pending = []
  completedTasks : s.phase = Phase.completed → s.tasks = []
  counting : s.pending.length + s.tasks.length + s.results.length
      + s.errors.length + s.handlerCalls.length = cfg.items.length
  noHandlerCalls : cfg.errorHandler = none → s.handlerCalls = []
  noErrors : ∀ eh, cfg.errorHandler = some eh → s.errors = []
  noFail : cfg.errorHandler = none → ∀ e2, s.phase ≠ Phase.failed e2

theorem inv_init (cfg : RunConfig T R E) : Inv cfg (initState cfg) := by
  refine ⟨rfl, ?_, ?_, ?_, ?_, ?_, ?_, ?_⟩ <;>
    simp [initState, List.enum_length]

theorem limit_false_iff {cfg : RunConfig T R E} {s : PoolState T R E} :
    hasReachedConcurrencyLimit cfg s = false ↔
      (s.tasks.length : ℚ) < cfg.concurrency := by
  unfold hasReachedConcurrencyLimit PoolState.activeCount
  simp [decide_eq_false_iff_not, not_le]

theorem limit_true_iff {cfg : RunConfig T R E} {s : PoolState T R E} :
    hasReachedConcurrencyLimit cfg s = true ↔
      cfg.concurrency ≤ (s.tasks.length : ℚ) := by
  unfold hasReachedConcurrencyLimit PoolState.activeCount
  simp [decide_eq_true_eq]

theorem inv_settle {cfg : RunConfig T R E} {s : PoolState T R E} {j i : Nat}
    {t : T} {ph : Phase E} (hInv : Inv cfg s) (hj : j < s.tasks.length)
    (hph : s.phase = ph) (hphOk : ph = Phase.suspended ∨ ph = Phase.draining) :
    Inv cfg (settleTask cfg s j i t ph) := by
  obtain ⟨h1, h2, h3, h4, h5, h6, h7, h8⟩ := hInv
  have hlen : (s.tasks.eraseIdx j).length = s.tasks.length - 1 :=
    List.length_eraseIdx_of_lt hj
  have hpos : 0 < s.tasks.length := Nat.lt_of_le_of_lt (Nat.zero_le j) hj
  cases hout : createTaskFor cfg t i with
  | ok r =>
    rw [settleTask_ok hout]
    refine ⟨h1, ?_, ?_, ?_, ?_, h6, h7, ?_⟩
    · exact fun hsp => h2 (hph.trans hsp)
    · intro hd
      rcases hd with hd | hd
      · exact h3 (Or.inl (hph.trans hd))
      · rcases hphOk with h9 | h9 <;> subst h9 <;> simp at hd
    · intro hd
      rcases hphOk with h9 | h9 <;> subst h9 <;> simp at hd
    · simp only [hlen, List.length_append, List.length_singleton]
      omega
    · intro _ e2
      rcases hphOk with h9 | h9 <;> subst h9 <;> simp
  | error err =>
    cases hEH : cfg.errorHandler with
    | none =>
      rw [settleTask_error_no_handler hout hEH]
      refine ⟨h1, ?_, ?_, ?_, ?_, h6, ?_, ?_⟩
      · exact fun hsp => h2 (hph.trans hsp)
      · intro hd
        rcases hd with hd | hd
        · exact h3 (Or.inl (hph.trans hd))
        · rcases hphOk with h9 | h9 <;> subst h9 <;> simp at hd
      · intro hd
        rcases hphOk with h9 | h9 <;> subst h9 <;> simp at hd
      · simp only [hlen, List.length_append, List.length_singleton]
        omega
      · intro eh heq
        rw [hEH] at heq
        cases heq
      · intro _ e2
        rcases hphOk with h9 | h9 <;> subst h9 <;> simp
    | some eh =>
      cases hh : eh err t with
      | ok u =>
        rw [settleTask_error_handled hout hEH hh]
        refine ⟨h1, ?_, ?_, ?_, ?_, ?_, h7, ?_⟩
        · exact fun hsp => h2 (hph.trans hsp)
        · intro hd
          rcases hd with hd | hd
          · exact h3 (Or.inl (hph.trans hd))
          · rcases hphOk with h9 | h9 <;> subst h9 <;> simp at hd
        · intro hd
          rcases hphOk with h9 | h9 <;> subst h9 <;> simp at hd
        · simp only [hlen, List.length_append, List.length_singleton]
          omega
        · intro h0
          rw [hEH] at h0
          cases h0
        · intro h0
          rw [hEH] at h0
          cases h0
      | error err2 =>
        rw [settleTask_error_handler_raised hout hEH hh]
        refine ⟨h1, ?_, ?_, ?_, ?_, ?_, h7, ?_⟩
        · intro hsp
          simp at hsp
        · intro hd
          rcases hd with hd | hd <;> simp at hd
        · intro hd
          simp at hd
        · simp only [hlen, List.length_append, List.length_singleton]
          omega
        · intro h0
          rw [hEH] at h0
          cases h0
        · intro h0
          rw [hEH] at h0
          cases h0

theorem inv_step {cfg : RunConfig T R E} {s s2 : PoolState T R E}
    (hInv : Inv cfg s) (hs : Step cfg s s2) : Inv cfg s2 := by
  obtain ⟨h1, h2, h3, h4, h5, h6, h7, h8⟩ := hInv
  cases hs with
  | startProcessing hph hp hfree =>
    rename_i i t rest
    refine ⟨?_, ?_, ?_, ?_, ?_, h6, h7, ?_⟩
    · simpa [hp, List.append_assoc] using h1
    · intro hsp
      rw [hph] at hsp
      cases hsp
    · intro hd
      rw [hph] at hd
      rcases hd with hd | hd <;> cases hd
    · intro hd
      rw [hph] at hd
      cases hd
    · simp only [List.length_append, List.length_singleton]
      rw [hp] at h5
      simp only [List.length_cons] at h5
      omega
    · intro h0 e2
      rw [hph]
      simp
  | awaitSlot hph hp hfull =>
    refine ⟨h1, ?_, ?_, ?_, h5, h6, h7, ?_⟩
    · intro _
      rw [hp]
      simp
    · intro hd
      rcases hd with hd | hd <;> cases hd
    · intro hd
      cases hd
    · intro _ e2
      simp
  | settleRace hph hj ht =>
    exact inv_settle ⟨h1, h2, h3, h4, h5, h6, h7, h8⟩ hj hph (Or.inl rfl)
  | resumeProcessing hph hp hfree =>
    rename_i i t rest
    refine ⟨?_, ?_, ?_, ?_, ?_, h6, h7, ?_⟩
    · simpa [hp, List.append_assoc] using h1
    · intro hsp
      cases hsp
    · intro hd
      rcases hd with hd | hd <;> cases hd
    · intro hd
      cases hd
    · simp only [List.length_append, List.length_singleton]
      rw [hp] at h5
      simp only [List.length_cons] at h5
      omega
    · intro h0 e2
      simp
  | beginDrain hph hp =>
    refine ⟨h1, ?_, ?_, ?_, h5, h6, h7, ?_⟩
    · intro hsp
      cases hsp
    · intro _
      exact hp
    · intro hd
      cases hd
    · intro _ e2
      simp
  | settleDrain hph hj ht =>
    exact inv_settle ⟨h1, h2, h3, h4, h5, h6, h7, h8⟩ hj hph (Or.inr rfl)
  | finishDrain hph ht =>
    refine ⟨h1, ?_, ?_, ?_, h5, h6, h7, ?_⟩
    · intro hsp
      cases hsp
    · intro _
      exact h3 (Or.inl hph)
    · intro _
      exact ht
    · intro _ e2
      simp

theorem inv_reachable {cfg : RunConfig T R E} {s : PoolState T R E}
    (h : Reachable cfg s) : Inv cfg s := by
  induction h with
  | refl => exact inv_init cfg
  | tail _ hstep ih => exact inv_step ih hstep

end Invariant

section Progress

variable {T R E : Type}

theorem settleTask_cases {cfg : RunConfig T R E} {s : PoolState T R E} {j i : Nat}
    {t : T} {ph : Phase E} :
    (∃ r, createTaskFor cfg t i = Except.ok r ∧
        settleTask cfg s j i t ph =
          { s with tasks := s.tasks.eraseIdx j,
                   results := s.results ++ [r], phase := ph }) ∨
    (∃ err, createTaskFor cfg t i = Except.error err ∧ cfg.errorHandler = none ∧
        settleTask cfg s j i t ph =
          { s with tasks := s.tasks.eraseIdx j,
                   errors := s.errors ++ [PromisePoolError.createFrom err t],
                   phase := ph }) ∨
    (∃ err eh u, createTaskFor cfg t i = Except.error err ∧
        cfg.errorHandler = some eh ∧ eh err t = Except.ok u ∧
        settleTask cfg s j i t ph =
          { s with tasks := s.tasks.eraseIdx j,
                   handlerCalls := s.handlerCalls ++ [(err, t)], phase := ph }) ∨
    (∃ err eh err2, createTaskFor cfg t i = Except.error err ∧
        cfg.errorHandler = some eh ∧ eh err t = Except.error err2 ∧
        settleTask cfg s j i t ph =
          { s with tasks := s.tasks.eraseIdx j,
                   handlerCalls := s.handlerCalls ++ [(err, t)],
                   phase := Phase.failed err2 }) := by
  cases hout : createTaskFor cfg t i with
  | ok r => exact Or.inl ⟨r, rfl, settleTask_ok hout⟩
  | error err =>
    cases hEH : cfg.errorHandler with
    | none =>
      exact Or.inr (Or.inl ⟨err, rfl, rfl, settleTask_error_no_handler hout hEH⟩)
    | some eh =>
      cases hh : eh err t with
      | ok u =>
        exact Or.inr (Or.inr (Or.inl
          ⟨err, eh, u, rfl, rfl, hh, settleTask_error_handled hout hEH hh⟩))
      | error err2 =>
        exact Or.inr (Or.inr (Or.inr
          ⟨err, eh, err2, rfl, rfl, hh, settleTask_error_handler_raised hout hEH hh⟩))

theorem settleTask_tasks {cfg : RunConfig T R E} {s : PoolState T R E} {j i : Nat}
    {t : T} {ph : Phase E} :
    (settleTask cfg s j i t ph).tasks = s.tasks.eraseIdx j := by
  rcases @settleTask_cases T R E cfg s j i t ph with
    ⟨r, _, he⟩ | ⟨err, _, _, he⟩ | ⟨err, eh, u, _, _, _, he⟩ | ⟨err, eh, err2, _, _, _, he⟩ <;>
    rw [he]

theorem settleTask_pending {cfg : RunConfig T R E} {s : PoolState T R E} {j i : Nat}
    {t : T} {ph : Phase E} :
    (settleTask cfg s j i t ph).pending = s.pending := by
  rcases @settleTask_cases T R E cfg s j i t ph with
    ⟨r, _, he⟩ | ⟨err, _, _, he⟩ | ⟨err, eh, u, _, _, _, he⟩ | ⟨err, eh, err2, _, _, _, he⟩ <;>
    rw [he]

theorem settleTask_started {cfg : RunConfig T R E} {s : PoolState T R E} {j i : Nat}
    {t : T} {ph : Phase E} :
    (settleTask cfg s j i t ph).started = s.started := by
  rcases @settleTask_cases T R E cfg s j i t ph with
    ⟨r, _, he⟩ | ⟨err, _, _, he⟩ | ⟨err, eh, u, _, _, _, he⟩ | ⟨err, eh, err2, _, _, _, he⟩ <;>
    rw [he]

theorem settleTask_results_append {cfg : RunConfig T R E} {s : PoolState T R E}
    {j i : Nat} {t : T} {ph : Phase E} :
    (settleTask cfg s j i t ph).results = s.results ∨
      ∃ r, (settleTask cfg s j i t ph).results = s.results ++ [r] := by
  rcases @settleTask_cases T R E cfg s j i t ph with
    ⟨r, _, he⟩ | ⟨err, _, _, he⟩ | ⟨err, eh, u, _, _, _, he⟩ | ⟨err, eh, err2, _, _, _, he⟩
  · exact Or.inr ⟨r, by rw [he]⟩
  · exact Or.inl (by rw [he])
  · exact Or.inl (by rw [he])
  · exact Or.inl (by rw [he])

theorem settleTask_errors_append {cfg : RunConfig T R E} {s : PoolState T R E}
    {j i : Nat} {t : T} {ph : Phase E} :
    (settleTask cfg s j i t ph).errors = s.errors ∨
      ∃ pe, (settleTask cfg s j i t ph).errors = s.errors ++ [pe] := by
  rcases @settleTask_cases T R E cfg s j i t ph with
    ⟨r, _, he⟩ | ⟨err, _, _, he⟩ | ⟨err, eh, u, _, _, _, he⟩ | ⟨err, eh, err2, _, _, _, he⟩
  · exact Or.inl (by rw [he])
  · exact Or.inr ⟨PromisePoolError.createFrom err t, by rw [he]⟩
  · exact Or.inl (by rw [he])
  · exact Or.inl (by rw [he])

/-- Bound used for termination of a run: admissions consume pending
items, settles consume in-flight tasks, and the remaining transitions
only lower the control rank. -/
def phaseRank {E : Type} : Phase E → Nat
  | Phase.looping => 3
  | Phase.suspended => 2
  | Phase.draining => 1
  | Phase.completed => 0
  | Phase.failed _ => 0

def stepMeasure {T R E : Type} (s : PoolState T R E) : Nat :=
  4 * s.pending.length + 2 * s.tasks.length + phaseRank s.phase

theorem settleTask_phaseRank_le {cfg : RunConfig T R E} {s : PoolState T R E}
    {j i : Nat} {t : T} {ph : Phase E} :
    phaseRank (settleTask cfg s j i t ph).phase ≤ phaseRank ph := by
  rcases @settleTask_cases T R E cfg s j i t ph with
    ⟨r, _, he⟩ | ⟨err, _, _, he⟩ | ⟨err, eh, u, _, _, _, he⟩ | ⟨err, eh, err2, _, _, _, he⟩
  · rw [he]
  · rw [he]
  · rw [he]
  · rw [he]
    exact Nat.zero_le _

theorem tasks_length_le_ceil {cfg : RunConfig T R E} (hC : 1 ≤ cfg.concurrency)
    {s : PoolState T R E} (h : Reachable cfg s) :
    (s.tasks.length : ℤ) ≤ ⌈cfg.concurrency⌉ := by
  induction h with
  | refl =>
    simp only [initState, List.length_nil, Nat.cast_zero]
    exact Int.ceil_nonneg (le_trans zero_le_one hC)
  | @tail b c _ hstep ih =>
    cases hstep with
    | startProcessing hph hp hfree =>
      have hlt2 : (b.tasks.length : ℤ) < ⌈cfg.concurrency⌉ := by
        rw [Int.lt_ceil]
        push_cast
        exact limit_false_iff.mp hfree
      simp only [List.length_append, List.length_singleton]
      omega
    | awaitSlot hph hp hfull =>
      simpa using ih
    | settleRace hph hj ht =>
      rw [settleTask_tasks, List.length_eraseIdx_of_lt hj]
      omega
    | resumeProcessing hph hp hfree =>
      have hlt2 : (b.tasks.length : ℤ) < ⌈cfg.concurrency⌉ := by
        rw [Int.lt_ceil]
        push_cast
        exact limit_false_iff.mp hfree
      simp only [List.length_append, List.length_singleton]
      omega
    | beginDrain hph hp =>
      simpa using ih
    | settleDrain hph hj ht =>
      rw [settleTask_tasks, List.length_eraseIdx_of_lt hj]
      omega
    | finishDrain hph ht =>
      simpa using ih

theorem progress_or_completed {cfg : RunConfig T R E}
    (hC : 1 ≤ cfg.concurrency) (hEH : cfg.errorHandler = none)
    {s : PoolState T R E} (hInv : Inv cfg s) :
    s.phase = Phase.completed ∨
      ∃ s2, Step cfg s s2 ∧ stepMeasure s2 < stepMeasure s := by
  cases hph : s.phase with
  | completed => exact Or.inl rfl
  | failed e2 => exact absurd hph (hInv.noFail hEH e2)
  | looping =>
    cases hp : s.pending with
    | nil =>
      refine Or.inr ⟨_, Step.beginDrain hph hp, ?_⟩
      simp only [stepMeasure, hph, phaseRank]
      omega
    | cons p rest =>
      obtain ⟨i, t⟩ := p
      cases hfree : hasReachedConcurrencyLimit cfg s with
      | false =>
        refine Or.inr ⟨_, Step.startProcessing hph hp hfree, ?_⟩
        have l1 : (s.tasks ++ [(i, t)]).length = s.tasks.length + 1 := by
          rw [List.length_append, List.length_singleton]
        have l2 : s.pending.length = rest.length + 1 := by
          rw [hp, List.length_cons]
        simp only [stepMeasure, l1]
        omega
      | true =>
        refine Or.inr ⟨_, Step.awaitSlot hph hp hfree, ?_⟩
        simp only [stepMeasure, hph, phaseRank]
        omega
  | suspended =>
    have hpne : s.pending ≠ [] := hInv.suspendedPending hph
    obtain ⟨p, rest, hp⟩ : ∃ p rest, s.pending = p :: rest := by
      cases hq : s.pending with
      | nil => exact absurd hq hpne
      | cons p rest => exact ⟨p, rest, rfl⟩
    obtain ⟨i, t⟩ := p
    cases hfree : hasReachedConcurrencyLimit cfg s with
    | false =>
      refine Or.inr ⟨_, Step.resumeProcessing hph hp hfree, ?_⟩
      have l1 : (s.tasks ++ [(i, t)]).length = s.tasks.length + 1 := by
        rw [List.length_append, List.length_singleton]
      have l2 : s.pending.length = rest.length + 1 := by
        rw [hp, List.length_cons]
      simp only [stepMeasure, l1, hph, phaseRank]
      omega
    | true =>
      have hle : cfg.concurrency ≤ (s.tasks.length : ℚ) := limit_true_iff.mp hfree
      have hpos : 0 < s.tasks.length := by
        by_contra h0
        have hz : s.tasks.length = 0 := by omega
        rw [hz] at hle
        push_cast at hle
        linarith
      refine Or.inr ⟨_, Step.settleRace hph hpos rfl, ?_⟩
      have e1 : (settleTask cfg s 0 (s.tasks.get ⟨0, hpos⟩).1
          (s.tasks.get ⟨0, hpos⟩).2 Phase.suspended).pending = s.pending :=
        settleTask_pending
      have e2 : (settleTask cfg s 0 (s.tasks.get ⟨0, hpos⟩).1
          (s.tasks.get ⟨0, hpos⟩).2 Phase.suspended).tasks = s.tasks.eraseIdx 0 :=
        settleTask_tasks
      have e3 : (s.tasks.eraseIdx 0).length = s.tasks.length - 1 :=
        List.length_eraseIdx_of_lt hpos
      have e4 : phaseRank (settleTask cfg s 0 (s.tasks.get ⟨0, hpos⟩).1
          (s.tasks.get ⟨0, hpos⟩).2 Phase.suspended).phase
            ≤ phaseRank (Phase.suspended : Phase E) :=
        settleTask_phaseRank_le
      simp only [stepMeasure, e1, e2, e3, hph, phaseRank] at e4 ⊢
      omega
  | draining =>
    cases ht : s.tasks with
    | nil =>
      refine Or.inr ⟨_, Step.finishDrain hph ht, ?_⟩
      simp only [stepMeasure, hph, phaseRank]
      omega
    | cons q qs =>
      have hpos : 0 < s.tasks.length := by
        rw [ht]
        simp
      refine Or.inr ⟨_, Step.settleDrain hph hpos rfl, ?_⟩
      have e1 : (settleTask cfg s 0 (s.tasks.get ⟨0, hpos⟩).1
          (s.tasks.get ⟨0, hpos⟩).2 Phase.draining).pending = s.pending :=
        settleTask_pending
      have e2 : (settleTask cfg s 0 (s.tasks.get ⟨0, hpos⟩).1
          (s.tasks.get ⟨0, hpos⟩).2 Phase.draining).tasks = s.tasks.eraseIdx 0 :=
        settleTask_tasks
      have e3 : (s.tasks.eraseIdx 0).length = s.tasks.length - 1 :=
        List.length_eraseIdx_of_lt hpos
      have e4 : phaseRank (settleTask cfg s 0 (s.tasks.get ⟨0, hpos⟩).1
          (s.tasks.get ⟨0, hpos⟩).2 Phase.draining).phase
            ≤ phaseRank (Phase.draining : Phase E) :=
        settleTask_phaseRank_le
      simp only [stepMeasure, e1, e2, e3, hph, phaseRank] at e4 ⊢
      omega

theorem completes_from {cfg : RunConfig T R E}
    (hC : 1 ≤ cfg.concurrency) (hEH : cfg.errorHandler = none) :
    ∀ (n : Nat) (s : PoolState T R E), stepMeasure s ≤ n → Inv cfg s →
      ∃ u, Relation.ReflTransGen (Step cfg) s u ∧ u.phase = Phase.completed := by
  intro n
  induction n with
  | zero =>
    intro s hm hInv
    rcases progress_or_completed hC hEH hInv with hc | ⟨s2, hst, hlt⟩
    · exact ⟨s, Relation.ReflTransGen.refl, hc⟩
    · omega
  | succ n ih =>
    intro s hm hInv
    rcases progress_or_completed hC hEH hInv with hc | ⟨s2, hst, hlt⟩
    · exact ⟨s, Relation.ReflTransGen.refl, hc⟩
    · obtain ⟨u, hu, hcu⟩ := ih s2 (by omega) (inv_step hInv hst)
      exact ⟨u, Relation.ReflTransGen.head hst hu, hcu⟩

end Progress

section ValidationClaims

/-- A configuration with every field valid except the concurrency value,
which is the number `0`. -/
def badConcurrencyExecutor : RawExecutor :=
  { handler := JSVal.fn, concurrency := JSVal.num 0,
    items := JSVal.arr, errorHandler := JSVal.undef }

/-- A fully valid configuration (callable handler, concurrency 10, array
items, no error handler). -/
def validExecutor : RawExecutor :=
  { handler := JSVal.fn, concurrency := JSVal.num 10,
    items := JSVal.arr, errorHandler := JSVal.undef }

/-- A configuration whose concurrency value is the fractional number
`3/2`, with every other field valid. -/
def fractionalExecutor : RawExecutor :=
  { handler := JSVal.fn, concurrency := JSVal.num (3 / 2),
    items := JSVal.arr, errorHandler := JSVal.undef }

theorem validateInputs_ok_of (e : RawExecutor)
    (h1 : typeofJS e.handler = "function")
    (h2 : isNumberGe1 e.concurrency = true)
    (h3 : isArrayJS e.items = true)
    (h4 : truthy e.errorHandler = true → typeofJS e.errorHandler = "function") :
    e.validateInputs = Except.ok e := by
  unfold RawExecutor.validateInputs
  rw [if_neg (fun hc => hc h1), if_neg (fun hc => hc h2),
    if_neg (fun hc => hc h3), if_neg (fun hc => hc.2 (h4 hc.1))]

theorem validateInputs_cases (e : RawExecutor) :
    e.validateInputs = Except.ok e ∨ ∃ er, e.validateInputs = Except.error er := by
  unfold RawExecutor.validateInputs
  by_cases h1 : typeofJS e.handler = "function"
  · rw [if_neg (fun hc => hc h1)]
    by_cases h2 : isNumberGe1 e.concurrency = true
    · rw [if_neg (fun hc => hc h2)]
      by_cases h3 : isArrayJS e.items = true
      · rw [if_neg (fun hc => hc h3)]
        by_cases h4 : truthy e.errorHandler = true
        · by_cases h5 : typeofJS e.errorHandler = "function"
          · rw [if_neg (fun hc => hc.2 h5)]
            exact Or.inl rfl
          · rw [if_pos ⟨h4, h5⟩]
            exact Or.inr ⟨_, rfl⟩
        · rw [if_neg (fun hc => h4 hc.1)]
          exact Or.inl rfl
      · rw [if_pos h3]
        exact Or.inr ⟨_, rfl⟩
    · rw [if_pos h2]
      exact Or.inr ⟨_, rfl⟩
  · rw [if_pos h1]
    exact Or.inr ⟨_, rfl⟩

theorem validateInputs_ok_iff (e : RawExecutor) :
    e.validateInputs = Except.ok e ↔
      (typeofJS e.handler = "function" ∧ isNumberGe1 e.concurrency = true ∧
        isArrayJS e.items = true ∧
        (truthy e.errorHandler = true → typeofJS e.errorHandler = "function")) := by
  constructor
  · intro h
    unfold RawExecutor.validateInputs at h
    by_cases h1 : typeofJS e.handler = "function"
    · rw [if_neg (fun hc => hc h1)] at h
      by_cases h2 : isNumberGe1 e.concurrency = true
      · rw [if_neg (fun hc => hc h2)] at h
        by_cases h3 : isArrayJS e.items = true
        · rw [if_neg (fun hc => hc h3)] at h
          by_cases h4 : truthy e.errorHandler = true
          · by_cases h5 : typeofJS e.errorHandler = "function"
            · exact ⟨h1, h2, h3, fun _ => h5⟩
            · rw [if_pos ⟨h4, h5⟩] at h
              cases h
          · exact ⟨h1, h2, h3, fun ht => absurd ht h4⟩
        · rw [if_pos h3] at h
          cases h
      · rw [if_pos h2] at h
        cases h
    · rw [if_pos h1] at h
      cases h
  · rintro ⟨h1, h2, h3, h4⟩
    exact validateInputs_ok_of e h1 h2 h3 h4

theorem validateInputs_ok_unchanged (e e2 : RawExecutor)
    (h : e.validateInputs = Except.ok e2) : e2 = e := by
  rcases validateInputs_cases e with hok | ⟨er, herr⟩
  · rw [hok] at h
    injection h with h5
    exact h5.symm
  · rw [herr] at h
    cases h

/-- C6: when the processing function is not callable, or the concurrency
value is not a number at least 1 (for example 0 or -1), or the item
sequence is not an array, or the error handler is set but not callable,
`start` rejects with a configuration error before any item is processed
(whatever processing would have followed validation never runs); any
value `validateInputs` returns is the executor unchanged; and on a valid
configuration `validateInputs` succeeds with the executor itself. -/
theorem spec_c6_validateInputs (e : RawExecutor) :
    ((typeofJS e.handler ≠ "function" ∨ isNumberGe1 e.concurrency = false ∨
        isArrayJS e.items = false ∨
        (truthy e.errorHandler = true ∧ typeofJS e.errorHandler ≠ "function")) →
      ∀ run, ∃ er, e.start run = Except.error er) ∧
    (∀ e2, e.validateInputs = Except.ok e2 → e2 = e) ∧
    (typeofJS e.handler = "function" → isNumberGe1 e.concurrency = true →
      isArrayJS e.items = true →
      (truthy e.errorHandler = true → typeofJS e.errorHandler = "function") →
      e.validateInputs = Except.ok e) := by
  refine ⟨?_, ?_, ?_⟩
  · intro hbad run
    rcases validateInputs_cases e with hok | ⟨er, herr⟩
    · exfalso
      obtain ⟨h1, h2, h3, h4⟩ := (validateInputs_ok_iff e).mp hok
      rcases hbad with hb | hb | hb | hb
      · exact hb h1
      · rw [h2] at hb
        cases hb
      · rw [h3] at hb
        cases hb
      · exact hb.2 (h4 hb.1)
    · unfold RawExecutor.start
      rw [herr]
      exact ⟨er, rfl⟩
  · intro e2 h
    exact validateInputs_ok_unchanged e e2 h
  · intro h1 h2 h3 h4
    exact validateInputs_ok_of e h1 h2 h3 h4

/-- Witness for C6 at concrete configurations: concurrency 0 makes
`start` reject for every continuation, and the valid configuration
validates to itself unchanged. -/
theorem spec_c6_validateInputs_witness :
    (∃ er, badConcurrencyExecutor.start (fun _ => []) = Except.error er) ∧
    validExecutor.validateInputs = Except.ok validExecutor := by
  constructor
  · exact (spec_c6_validateInputs badConcurrencyExecutor).1
      (Or.inr (Or.inl (by norm_num [badConcurrencyExecutor, isNumberGe1])))
      (fun _ => [])
  · exact (spec_c6_validateInputs validExecutor).2.2 rfl
      (by norm_num [validExecutor, isNumberGe1]) rfl
      (by intro h; cases h)

/-- Counterexample to C7 as stated: the concurrency value `3/2` is not a
positive integer, yet `validateInputs` accepts the configuration
unchanged — the code only checks `typeof c === 'number' && c >= 1` and
never enforces integrality. -/
theorem spec_c7_counterexample :
    fractionalExecutor.validateInputs = Except.ok fractionalExecutor ∧
    ¬ specPositiveInteger fractionalExecutor.concurrency := by
  constructor
  · exact validateInputs_ok_of fractionalExecutor rfl
      (by norm_num [fractionalExecutor, isNumberGe1]) rfl
      (by intro h; simp [fractionalExecutor, truthy] at h)
  · rintro ⟨n, hn1, hn⟩
    simp only [fractionalExecutor] at hn
    injection hn with hq
    have h3 : (3 : ℚ) = (n : ℚ) * 2 := by
      field_simp at hq
      linarith
    have h4 : (3 : ℕ) = n * 2 := by exact_mod_cast h3
    omega

/-- C7 amended: with the other three fields valid, validation fails
exactly when the concurrency value is not a number that is at least 1;
fractional numbers at least 1 (such as 3/2) are accepted, so the
positive-integer invariant claimed by the spec is not enforced. -/
theorem spec_c7_amended (e : RawExecutor)
    (hH : typeofJS e.handler = "function")
    (hI : isArrayJS e.items = true)
    (hE : truthy e.errorHandler = true → typeofJS e.errorHandler = "function") :
    e.validateInputs = Except.ok e ↔ isNumberGe1 e.concurrency = true := by
  constructor
  · intro h
    exact ((validateInputs_ok_iff e).mp h).2.1
  · intro hc
    exact validateInputs_ok_of e hH hc hI hE

/-- Witness for the amended C7: the fractional concurrency `3/2` passes
validation. -/
theorem spec_c7_amended_witness :
    fractionalExecutor.validateInputs = Except.ok fractionalExecutor :=
  (spec_c7_amended fractionalExecutor rfl rfl (by intro h; cases h)).mpr
    (by norm_num [fractionalExecutor, isNumberGe1])

end ValidationClaims

section SetterClaims

/-- C10: each configuration setter only updates its own field:
`withConcurrency` the concurrency limit, `forItems` (the source's `for`)
the item sequence, `withHandler` the processing function, `handleError`
the error handler; every other field — in particular the `results`,
`errors` and `tasks` collections — is left unchanged, and the updated
executor is what each setter returns (the source returns `this`). -/
theorem spec_c10_setters {T R E : Type} (e : PromisePoolExecutor T R E)
    (n : ℚ) (its : List T) (act : ProcessHandler T R E)
    (eh : Option (E → T → Except E Unit)) :
    ((e.withConcurrency n).concurrency = n ∧
      (e.withConcurrency n).items = e.items ∧
      (e.withConcurrency n).tasks = e.tasks ∧
      (e.withConcurrency n).results = e.results ∧
      (e.withConcurrency n).handler = e.handler ∧
      (e.withConcurrency n).errorHandler = e.errorHandler ∧
      (e.withConcurrency n).errors = e.errors) ∧
    ((e.forItems its).items = its ∧
      (e.forItems its).concurrency = e.concurrency ∧
      (e.forItems its).tasks = e.tasks ∧
      (e.forItems its).results = e.results ∧
      (e.forItems its).handler = e.handler ∧
      (e.forItems its).errorHandler = e.errorHandler ∧
      (e.forItems its).errors = e.errors) ∧
    ((e.withHandler act).handler = act ∧
      (e.withHandler act).items = e.items ∧
      (e.withHandler act).concurrency = e.concurrency ∧
      (e.withHandler act).tasks = e.tasks ∧
      (e.withHandler act).results = e.results ∧
      (e.withHandler act).errorHandler = e.errorHandler ∧
      (e.withHandler act).errors = e.errors) ∧
    ((e.handleError eh).errorHandler = eh ∧
      (e.handleError eh).items = e.items ∧
      (e.handleError eh).concurrency = e.concurrency ∧
      (e.handleError eh).tasks = e.tasks ∧
      (e.handleError eh).results = e.results ∧
      (e.handleError eh).handler = e.handler ∧
      (e.handleError eh).errors = e.errors) :=
  ⟨⟨rfl, rfl, rfl, rfl, rfl, rfl, rfl⟩, ⟨rfl, rfl, rfl, rfl, rfl, rfl, rfl⟩,
    ⟨rfl, rfl, rfl, rfl, rfl, rfl, rfl⟩, ⟨rfl, rfl, rfl, rfl, rfl, rfl, rfl⟩⟩

end SetterClaims

section RunClaims

theorem inv_rtg {T R E : Type} {cfg : RunConfig T R E} {a b : PoolState T R E}
    (h : Relation.ReflTransGen (Step cfg) a b) (ha : Inv cfg a) : Inv cfg b := by
  induction h with
  | refl => exact ha
  | tail _ hstep ih => exact inv_step ih hstep

theorem completed_partition {T R E : Type} {cfg : RunConfig T R E}
    (hEH : cfg.errorHandler = none) {s : PoolState T R E} (hInv : Inv cfg s)
    (hdone : s.phase = Phase.completed) :
    s.results.length + s.errors.length = cfg.items.length := by
  have hp : s.pending = [] := hInv.drainPending (Or.inr hdone)
  have ht : s.tasks = [] := hInv.completedTasks hdone
  have hh : s.handlerCalls = [] := hInv.noHandlerCalls hEH
  have hc := hInv.counting
  rw [hp, ht, hh] at hc
  simpa using hc

/-- C2: with no error handler configured, once the run has completed
every item has contributed exactly one entry to exactly one of the two
output collections, so `results.length + errors.length` equals
`items.length`. -/
theorem spec_c2_partition {T R E : Type} {cfg : RunConfig T R E}
    (hEH : cfg.errorHandler = none) {s : PoolState T R E}
    (hr : Reachable cfg s) (hdone : s.phase = Phase.completed) :
    s.results.length + s.errors.length = cfg.items.length :=
  completed_partition hEH (inv_reachable hr) hdone

/-- A one-item run used to exercise the pool concretely: item 5,
concurrency 1, handler returning the item, no error handler. -/
def c2config : RunConfig ℕ ℕ Unit :=
  { items := [5], concurrency := 1,
    handler := fun t _ => Except.ok t, errorHandler := none }

/-- The state in which the one-item run finishes. -/
def c2final : PoolState ℕ ℕ Unit :=
  { pending := [], tasks := [], results := [5], errors := [],
    handlerCalls := [], started := [(0, 5)], phase := Phase.completed }

/-- Intermediate states of the one-item run. -/
def c2s1 : PoolState ℕ ℕ Unit :=
  { pending := [], tasks := [(0, 5)], results := [], errors := [],
    handlerCalls := [], started := [(0, 5)], phase := Phase.looping }

def c2s2 : PoolState ℕ ℕ Unit :=
  { c2s1 with phase := Phase.draining }

def c2s3 : PoolState ℕ ℕ Unit :=
  { pending := [], tasks := [], results := [5], errors := [],
    handlerCalls := [], started := [(0, 5)], phase := Phase.draining }

theorem c2_run : Reachable c2config c2final := by
  have h1 : Step c2config (initState c2config) c2s1 :=
    Step.startProcessing rfl rfl
      (limit_false_iff.mpr (by norm_num [initState, c2config]))
  have h2 : Step c2config c2s1 c2s2 := Step.beginDrain rfl rfl
  have h3 : Step c2config c2s2 c2s3 :=
    @Step.settleDrain ℕ ℕ Unit c2config c2s2 0 0 5 rfl (by decide) rfl
  have h4 : Step c2config c2s3 c2final := Step.finishDrain rfl rfl
  exact Relation.ReflTransGen.head h1 (Relation.ReflTransGen.head h2
    (Relation.ReflTransGen.head h3 (Relation.ReflTransGen.head h4
      Relation.ReflTransGen.refl)))

/-- Witness for C2: the one-item run completes with one result and no
error, and 1 + 0 is the number of items. -/
theorem spec_c2_partition_witness :
    c2final.results.length + c2final.errors.length = c2config.items.length :=
  spec_c2_partition rfl c2_run rfl

/-- C8: in every reachable state of a run, the admission log followed by
the still-pending items is exactly `items.entries()` — items are
admitted in input order with none skipped or reordered — and every
admitted pair consists of an item together with its positional index in
the input sequence, which is exactly what `createTaskFor` hands to the
processing function. -/
theorem spec_c8_admission_order {T R E : Type} {cfg : RunConfig T R E}
    {s : PoolState T R E} (hr : Reachable cfg s) :
    s.started ++ s.pending = cfg.items.enum ∧
    ∀ i t, (i, t) ∈ s.started → cfg.items[i]? = some t := by
  have hInv := inv_reachable hr
  refine ⟨hInv.startedPending, ?_⟩
  intro i t hmem
  have hin : (i, t) ∈ cfg.items.enum := by
    rw [← hInv.startedPending]
    exact List.mem_append_left _ hmem
  exact List.mk_mem_enum_iff_getElem?.mp hin

/-- Witness for C8 on the concrete one-item run. -/
theorem spec_c8_admission_order_witness :
    c2final.started ++ c2final.pending = c2config.items.enum ∧
    ∀ i t, (i, t) ∈ c2final.started → c2config.items[i]? = some t :=
  spec_c8_admission_order c2_run

/-- C4: with an error handler configured, `errors` is empty in every
reachable state of the run, every item ends up in exactly one of
pending, in flight, `results`, or the error-handler invocation log
(so the handler runs exactly once per failing item), and whenever an
in-flight task fails, its completion invokes the error handler with
the raised error and the item's original value, appending exactly that
pair to the invocation log. -/
theorem spec_c4_error_handler {T R E : Type} {cfg : RunConfig T R E}
    (eh : E → T → Except E Unit) (hEH : cfg.errorHandler = some eh)
    {s : PoolState T R E} (hr : Reachable cfg s) :
    s.errors = [] ∧
    s.pending.length + s.tasks.length + s.results.length
        + s.handlerCalls.length = cfg.items.length ∧
    (∀ j i t err (hj : j < s.tasks.length), s.tasks.get ⟨j, hj⟩ = (i, t) →
      createTaskFor cfg t i = Except.error err →
      (settleTask cfg s j i t s.phase).handlerCalls
        = s.handlerCalls ++ [(err, t)]) := by
  have hInv := inv_reachable hr
  have he : s.errors = [] := hInv.noErrors eh hEH
  refine ⟨he, ?_, ?_⟩
  · have hc := hInv.counting
    rw [he] at hc
    simpa using hc
  · intro j i t err hj hget hfail
    cases hh : eh err t with
    | ok u => rw [settleTask_error_handled hfail hEH hh]
    | error e2 => rw [settleTask_error_handler_raised hfail hEH hh]

/-- A one-item run with a failing handler and a configured (returning)
error handler: item 7, concurrency 1, the handler raises 0. -/
def c4config : RunConfig ℕ ℕ ℕ :=
  { items := [7], concurrency := 1,
    handler := fun _ _ => Except.error 0,
    errorHandler := some (fun _ _ => Except.ok ()) }

/-- The state of that run right before its only task settles. -/
def c4mid : PoolState ℕ ℕ ℕ :=
  { pending := [], tasks := [(0, 7)], results := [], errors := [],
    handlerCalls := [], started := [(0, 7)], phase := Phase.draining }

/-- The state of that run right after its only admission. -/
def c4s1 : PoolState ℕ ℕ ℕ :=
  { pending := [], tasks := [(0, 7)], results := [], errors := [],
    handlerCalls := [], started := [(0, 7)], phase := Phase.looping }

theorem c4_run : Reachable c4config c4mid := by
  have h1 : Step c4config (initState c4config) c4s1 :=
    Step.startProcessing rfl rfl
      (limit_false_iff.mpr (by norm_num [initState, c4config]))
  have h2 : Step c4config c4s1 c4mid := Step.beginDrain rfl rfl
  exact Relation.ReflTransGen.head h1 (Relation.ReflTransGen.head h2
    Relation.ReflTransGen.refl)

/-- Witness for C4 on the concrete failing run: no errors are recorded
and the failing settle logs exactly one handler invocation. -/
theorem spec_c4_error_handler_witness :
    c4mid.errors = [] ∧
    c4mid.pending.length + c4mid.tasks.length + c4mid.results.length
        + c4mid.handlerCalls.length = c4config.items.length ∧
    (∀ j i t err (hj : j < c4mid.tasks.length),
      c4mid.tasks.get ⟨j, hj⟩ = (i, t) →
      createTaskFor c4config t i = Except.error err →
      (settleTask c4config c4mid j i t c4mid.phase).handlerCalls
        = c4mid.handlerCalls ++ [(err, t)]) :=
  spec_c4_error_handler (fun _ _ => Except.ok ()) rfl c4_run

/-- C5: when the configured error handler itself raises while handling a
task failure, the run moves to the `failed` phase carrying that error:
`start` rejects, no further transition is possible, and no
`{results, errors}` return value is produced (the collected results and
errors are lost to the caller). -/
theorem spec_c5_handler_raises {T R E : Type} {cfg : RunConfig T R E}
    {s : PoolState T R E} (_hr : Reachable cfg s)
    (eh : E → T → Except E Unit) (hEH : cfg.errorHandler = some eh)
    {j i : Nat} {t : T} {err err2 : E}
    (hj : j < s.tasks.length) (hget : s.tasks.get ⟨j, hj⟩ = (i, t))
    (hph : s.phase = Phase.suspended ∨ s.phase = Phase.draining)
    (hfail : createTaskFor cfg t i = Except.error err)
    (hherr : eh err t = Except.error err2) :
    Step cfg s (settleTask cfg s j i t s.phase) ∧
    (settleTask cfg s j i t s.phase).phase = Phase.failed err2 ∧
    (∀ u, ¬ Step cfg (settleTask cfg s j i t s.phase) u) ∧
    (settleTask cfg s j i t s.phase).returnValue = none := by
  have hf : (settleTask cfg s j i t s.phase).phase = Phase.failed err2 := by
    rw [settleTask_error_handler_raised hfail hEH hherr]
  refine ⟨?_, hf, ?_, ?_⟩
  · rcases hph with h | h
    · rw [h]
      exact Step.settleRace h hj hget
    · rw [h]
      exact Step.settleDrain h hj hget
  · intro u hstep
    cases hstep with
    | startProcessing hph2 hp2 hfree2 => rw [hf] at hph2; cases hph2
    | awaitSlot hph2 hp2 hfull2 => rw [hf] at hph2; cases hph2
    | settleRace hph2 hj2 ht2 => rw [hf] at hph2; cases hph2
    | resumeProcessing hph2 hp2 hfree2 => rw [hf] at hph2; cases hph2
    | beginDrain hph2 hp2 => rw [hf] at hph2; cases hph2
    | settleDrain hph2 hj2 ht2 => rw [hf] at hph2; cases hph2
    | finishDrain hph2 ht2 => rw [hf] at hph2; cases hph2
  · unfold PoolState.returnValue
    rw [hf]

/-- A one-item run whose handler raises 0 and whose error handler itself
raises 1. -/
def c5config : RunConfig ℕ ℕ ℕ :=
  { items := [3], concurrency := 1,
    handler := fun _ _ => Except.error 0,
    errorHandler := some (fun _ _ => Except.error 1) }

/-- The state of that run right before its only task settles. -/
def c5mid : PoolState ℕ ℕ ℕ :=
  { pending := [], tasks := [(0, 3)], results := [], errors := [],
    handlerCalls := [], started := [(0, 3)], phase := Phase.draining }

/-- The state of that run right after its only admission. -/
def c5s1 : PoolState ℕ ℕ ℕ :=
  { pending := [], tasks := [(0, 3)], results := [], errors := [],
    handlerCalls := [], started := [(0, 3)], phase := Phase.looping }

theorem c5_run : Reachable c5config c5mid := by
  have h1 : Step c5config (initState c5config) c5s1 :=
    Step.startProcessing rfl rfl
      (limit_false_iff.mpr (by norm_num [initState, c5config]))
  have h2 : Step c5config c5s1 c5mid := Step.beginDrain rfl rfl
  exact Relation.ReflTransGen.head h1 (Relation.ReflTransGen.head h2
    Relation.ReflTransGen.refl)

/-- Witness for C5 on the concrete run whose error handler raises. -/
theorem spec_c5_handler_raises_witness :
    Step c5config c5mid (settleTask c5config c5mid 0 0 3 c5mid.phase) ∧
    (settleTask c5config c5mid 0 0 3 c5mid.phase).phase = Phase.failed 1 ∧
    (∀ u, ¬ Step c5config (settleTask c5config c5mid 0 0 3 c5mid.phase) u) ∧
    (settleTask c5config c5mid 0 0 3 c5mid.phase).returnValue = none :=
  spec_c5_handler_raises c5_run (fun _ _ => Except.error 1) rfl
    (by decide) rfl (Or.inr rfl) rfl rfl

/-- C3: with no error handler configured (and a valid concurrency
ceiling), when an in-flight task fails its completion appends exactly
one `PoolError` wrapping the raised error and the original item to
`errors`, leaves the remaining in-flight tasks running and the phase
unchanged (the failure aborts nothing), and the run can still reach
completion, where `start` resolves with the full results/errors
partition of all items. -/
theorem spec_c3_item_failure {T R E : Type} {cfg : RunConfig T R E}
    (hC : 1 ≤ cfg.concurrency) (hEH : cfg.errorHandler = none)
    {s : PoolState T R E} (hr : Reachable cfg s)
    {j i : Nat} {t : T} {err : E}
    (hj : j < s.tasks.length) (hget : s.tasks.get ⟨j, hj⟩ = (i, t))
    (hph : s.phase = Phase.suspended ∨ s.phase = Phase.draining)
    (hfail : createTaskFor cfg t i = Except.error err) :
    Step cfg s (settleTask cfg s j i t s.phase) ∧
    (settleTask cfg s j i t s.phase).errors
        = s.errors ++ [PromisePoolError.createFrom err t] ∧
    (settleTask cfg s j i t s.phase).phase = s.phase ∧
    (settleTask cfg s j i t s.phase).tasks = s.tasks.eraseIdx j ∧
    ∃ u, Relation.ReflTransGen (Step cfg) (settleTask cfg s j i t s.phase) u ∧
      u.phase = Phase.completed ∧
      u.results.length + u.errors.length = cfg.items.length := by
  have hstep : Step cfg s (settleTask cfg s j i t s.phase) := by
    rcases hph with h | h
    · rw [h]
      exact Step.settleRace h hj hget
    · rw [h]
      exact Step.settleDrain h hj hget
  have hInv2 : Inv cfg (settleTask cfg s j i t s.phase) :=
    inv_step (inv_reachable hr) hstep
  refine ⟨hstep, ?_, ?_, settleTask_tasks, ?_⟩
  · rw [settleTask_error_no_handler hfail hEH]
  · rw [settleTask_error_no_handler hfail hEH]
  · obtain ⟨u, hu, hcu⟩ :=
      completes_from hC hEH (stepMeasure (settleTask cfg s j i t s.phase))
        (settleTask cfg s j i t s.phase) le_rfl hInv2
    exact ⟨u, hu, hcu, completed_partition hEH (inv_rtg hu hInv2) hcu⟩

/-- A one-item run whose handler raises 9, with no error handler. -/
def c3config : RunConfig ℕ ℕ ℕ :=
  { items := [4], concurrency := 1,
    handler := fun _ _ => Except.error 9, errorHandler := none }

/-- The state of that run right before its only task settles. -/
def c3mid : PoolState ℕ ℕ ℕ :=
  { pending := [], tasks := [(0, 4)], results := [], errors := [],
    handlerCalls := [], started := [(0, 4)], phase := Phase.draining }

/-- The state of that run right after its only admission. -/
def c3s1 : PoolState ℕ ℕ ℕ :=
  { pending := [], tasks := [(0, 4)], results := [], errors := [],
    handlerCalls := [], started := [(0, 4)], phase := Phase.looping }

theorem c3_run : Reachable c3config c3mid := by
  have h1 : Step c3config (initState c3config) c3s1 :=
    Step.startProcessing rfl rfl
      (limit_false_iff.mpr (by norm_num [initState, c3config]))
  have h2 : Step c3config c3s1 c3mid := Step.beginDrain rfl rfl
  exact Relation.ReflTransGen.head h1 (Relation.ReflTransGen.head h2
    Relation.ReflTransGen.refl)

/-- Witness for C3 on the concrete failing run without error handler. -/
theorem spec_c3_item_failure_witness :
    Step c3config c3mid (settleTask c3config c3mid 0 0 4 c3mid.phase) ∧
    (settleTask c3config c3mid 0 0 4 c3mid.phase).errors
        = c3mid.errors ++ [PromisePoolError.createFrom 9 4] ∧
    (settleTask c3config c3mid 0 0 4 c3mid.phase).phase = c3mid.phase ∧
    (settleTask c3config c3mid 0 0 4 c3mid.phase).tasks
        = c3mid.tasks.eraseIdx 0 ∧
    ∃ u, Relation.ReflTransGen (Step c3config)
        (settleTask c3config c3mid 0 0 4 c3mid.phase) u ∧
      u.phase = Phase.completed ∧
      u.results.length + u.errors.length = c3config.items.length :=
  spec_c3_item_failure (by norm_num [c3config]) rfl c3_run
    (by decide) rfl (Or.inr rfl) rfl

end RunClaims

section ConcurrencyClaims

/-- A two-item run whose concurrency ceiling is the fractional number
3/2 — the value `validateInputs` accepts (see `fractionalExecutor`). -/
def c1config : RunConfig ℕ ℕ Unit :=
  { items := [10, 20], concurrency := 3 / 2,
    handler := fun t _ => Except.ok t, errorHandler := none }

def c1s1 : PoolState ℕ ℕ Unit :=
  { pending := [(1, 20)], tasks := [(0, 10)], results := [], errors := [],
    handlerCalls := [], started := [(0, 10)], phase := Phase.looping }

/-- The state of that run with both items in flight. -/
def c1over : PoolState ℕ ℕ Unit :=
  { pending := [], tasks := [(0, 10), (1, 20)], results := [], errors := [],
    handlerCalls := [], started := [(0, 10), (1, 20)], phase := Phase.looping }

/-- Counterexample to C1 as stated: the concurrency value 3/2 passes
validation (it is a number at least 1), yet the run admits two tasks —
`0 >= 3/2` and `1 >= 3/2` are both false, so the admission loop never
suspends — and reaches a state whose active count 2 exceeds the ceiling
3/2. -/
theorem spec_c1_counterexample :
    fractionalExecutor.validateInputs = Except.ok fractionalExecutor ∧
    fractionalExecutor.concurrency = JSVal.num c1config.concurrency ∧
    (1 : ℚ) ≤ c1config.concurrency ∧
    Reachable c1config c1over ∧
    ¬ ((c1over.activeCount : ℚ) ≤ c1config.concurrency) := by
  refine ⟨validateInputs_ok_of fractionalExecutor rfl
      (by norm_num [fractionalExecutor, isNumberGe1]) rfl
      (by intro h; simp [fractionalExecutor, truthy] at h),
    rfl, by norm_num [c1config], ?_, ?_⟩
  · have h1 : Step c1config (initState c1config) c1s1 :=
      Step.startProcessing rfl rfl
        (limit_false_iff.mpr (by norm_num [initState, c1config]))
    have h2 : Step c1config c1s1 c1over :=
      Step.startProcessing rfl rfl
        (limit_false_iff.mpr (by norm_num [c1s1, c1config]))
    exact Relation.ReflTransGen.head h1
      (Relation.ReflTransGen.head h2 Relation.ReflTransGen.refl)
  · norm_num [c1over, c1config, PoolState.activeCount]

/-- C1 amended: for every validated concurrency value C at least 1, the
active count never exceeds the integer ceiling of C in any reachable
state — the admission loop suspends whenever the active count is at or
above C and admits at most one task per free slot — and in particular
when C is an integer n at least 1 (the only case the spec's own
configuration invariant allows) the active count never exceeds n. For
fractional C such as 3/2 the bound as originally stated fails. -/
theorem spec_c1_amended {T R E : Type} {cfg : RunConfig T R E}
    (hC : 1 ≤ cfg.concurrency) {s : PoolState T R E} (hr : Reachable cfg s) :
    (s.activeCount : ℤ) ≤ ⌈cfg.concurrency⌉ ∧
    (∀ n : ℕ, cfg.concurrency = (n : ℚ) → s.activeCount ≤ n) := by
  have hb := tasks_length_le_ceil hC hr
  refine ⟨hb, ?_⟩
  intro n hn
  rw [hn, Int.ceil_natCast] at hb
  exact_mod_cast hb

/-- Witness for the amended C1 on the completed one-item run with
integer concurrency 1. -/
theorem spec_c1_amended_witness :
    (c2final.activeCount : ℤ) ≤ ⌈c2config.concurrency⌉ ∧
    (∀ n : ℕ, c2config.concurrency = (n : ℚ) → c2final.activeCount ≤ n) :=
  spec_c1_amended (by norm_num [c2config]) c2_run

/-- A two-item run with concurrency 2 in which both items are admitted
before either settles and the later-admitted item settles first. -/
def c9config : RunConfig ℕ ℕ Unit :=
  { items := [10, 20], concurrency := 2,
    handler := fun t _ => Except.ok t, errorHandler := none }

def c9s1 : PoolState ℕ ℕ Unit :=
  { pending := [(1, 20)], tasks := [(0, 10)], results := [], errors := [],
    handlerCalls := [], started := [(0, 10)], phase := Phase.looping }

def c9s2 : PoolState ℕ ℕ Unit :=
  { pending := [], tasks := [(0, 10), (1, 20)], results := [], errors := [],
    handlerCalls := [], started := [(0, 10), (1, 20)], phase := Phase.looping }

def c9s3 : PoolState ℕ ℕ Unit :=
  { c9s2 with phase := Phase.draining }

def c9s4 : PoolState ℕ ℕ Unit :=
  { pending := [], tasks := [(0, 10)], results := [20], errors := [],
    handlerCalls := [], started := [(0, 10), (1, 20)], phase := Phase.draining }

def c9s5 : PoolState ℕ ℕ Unit :=
  { pending := [], tasks := [], results := [20, 10], errors := [],
    handlerCalls := [], started := [(0, 10), (1, 20)], phase := Phase.draining }

/-- The completed state of that run: the later-admitted item 20 was
recorded before the earlier-admitted item 10. -/
def c9final : PoolState ℕ ℕ Unit :=
  { c9s5 with phase := Phase.completed }

/-- C9: entries join the `results` and `errors` collections in the
order the completions are observed — every observed completion appends
at most one entry at the tail of one of the collections — and this is
completion order, not input order: in the concrete two-item run with
concurrency 2, the later-admitted task settles first and is recorded
first, producing `results = [20, 10]` for `items = [10, 20]`. -/
theorem spec_c9_completion_order :
    (∀ (T R E : Type) (cfg : RunConfig T R E) (s : PoolState T R E)
        (j i : Nat) (t : T) (ph : Phase E),
      ((settleTask cfg s j i t ph).results = s.results ∨
        ∃ r, (settleTask cfg s j i t ph).results = s.results ++ [r]) ∧
      ((settleTask cfg s j i t ph).errors = s.errors ∨
        ∃ pe, (settleTask cfg s j i t ph).errors = s.errors ++ [pe])) ∧
    c9config.items = [10, 20] ∧
    Reachable c9config c9final ∧
    c9final.phase = Phase.completed ∧
    c9final.results = [20, 10] := by
  refine ⟨fun T R E cfg s j i t ph =>
      ⟨settleTask_results_append, settleTask_errors_append⟩,
    rfl, ?_, rfl, rfl⟩
  have h1 : Step c9config (initState c9config) c9s1 :=
    Step.startProcessing rfl rfl
      (limit_false_iff.mpr (by norm_num [initState, c9config]))
  have h2 : Step c9config c9s1 c9s2 :=
    Step.startProcessing rfl rfl
      (limit_false_iff.mpr (by norm_num [c9s1, c9config]))
  have h3 : Step c9config c9s2 c9s3 := Step.beginDrain rfl rfl
  have h4 : Step c9config c9s3 c9s4 :=
    @Step.settleDrain ℕ ℕ Unit c9config c9s3 1 1 20 rfl (by decide) rfl
  have h5 : Step c9config c9s4 c9s5 :=
    @Step.settleDrain ℕ ℕ Unit c9config c9s4 0 0 10 rfl (by decide) rfl
  have h6 : Step c9config c9s5 c9final := Step.finishDrain rfl rfl
  exact Relation.ReflTransGen.head h1 (Relation.ReflTransGen.head h2
    (Relation.ReflTransGen.head h3 (Relation.ReflTransGen.head h4
      (Relation.ReflTransGen.head h5 (Relation.ReflTransGen.head h6
        Relation.ReflTransGen.refl)))))

end ConcurrencyClaims

end PromisePool
